import Mathlib

/-!
Verification of the `migrate-claude.py` migration script.

The script reads a JSON array of Claude conversation records and writes
normalized `conversations` and `messages` rows into a SQLite database.
We embed the pure content of the script shallowly:

* JSON records become Lean structures whose optional fields are `Option`
  (an absent key behaves like Python's `dict.get` returning `None`;
  accessing an absent required key raises `KeyError`, modelled as an
  `Except` error).  Field values are assumed well-typed (strings/lists),
  matching the script's implicit assumption.
* `str.strip` is modelled on `List Char` as dropping leading/trailing
  whitespace characters; Python slicing `[:50]` is `List.take 50`
  (both index by code points).
* `datetime.fromisoformat(s.replace('Z', '+00:00'))` followed by
  `int(dt.timestamp())` is modelled for the offset-aware fragment
  `YYYY-MM-DDTHH:MM:SS(+|-)HH:MM` (plus the trailing-`Z` alias the code
  rewrites).  The epoch arithmetic mirrors CPython's proleptic-Gregorian
  ordinal formulas (`_days_before_year`, `_DAYS_BEFORE_MONTH`,
  epoch ordinal 719163).  Timestamps without a UTC offset are parsed by
  CPython as naive datetimes whose `timestamp()` depends on the host
  timezone, so they denote no fixed instant and are outside the model.
* SQLite `INSERT OR REPLACE` on a `PRIMARY KEY` column is an upsert:
  replace every row carrying the key if present, otherwise append.
  The script never enables `PRAGMA foreign_keys`, so (as in the Python
  default) no cascade runs on replacement.
* The script commits the single transaction only after the whole loop
  (line 113) and the `except` path exits with status 1 without
  committing, so an aborted run persists no rows; `mainRun` models this
  commit-on-success / rollback-on-error boundary (schema DDL is outside
  the row-level model).
-/

/-- Model of Python `str.strip`'s whitespace test for the characters that
occur in this data (the full Python definition covers the same ASCII
whitespace plus further Unicode space characters, none of which the
claims exercise). -/
def isPySpace (c : Char) : Bool := c.isWhitespace

/-- Python `str.strip()`: drop leading and trailing whitespace. -/
def pyStrip (l : List Char) : List Char :=
  ((l.dropWhile isPySpace).reverse.dropWhile isPySpace).reverse

/-- Python `s.replace('Z', '+00:00')` on the underlying characters:
every occurrence of `'Z'` becomes the five characters `+00:00`. -/
def replaceZ : List Char → List Char
  | [] => []
  | c :: cs =>
    if c = 'Z' then '+' :: '0' :: '0' :: ':' :: '0' :: '0' :: replaceZ cs
    else c :: replaceZ cs

/-- The character for a decimal digit value (used to render timestamps). -/
def dChar (n : Nat) : Char := Char.ofNat (48 + n)

/-- The decimal value of a digit character. -/
def dVal (c : Char) : Nat := c.toNat - 48

/-- Proleptic-Gregorian leap-year test (CPython `datetime._is_leap`). -/
def isLeap (y : Nat) : Bool :=
  decide ((y % 4 = 0 ∧ ¬ y % 100 = 0) ∨ y % 400 = 0)

/-- Length of a month (CPython `datetime._days_in_month`). -/
def daysInMonth (y m : Nat) : Nat :=
  match m with
  | 1 => 31
  | 2 => if isLeap y then 29 else 28
  | 3 => 31
  | 4 => 30
  | 5 => 31
  | 6 => 30
  | 7 => 31
  | 8 => 31
  | 9 => 30
  | 10 => 31
  | 11 => 30
  | 12 => 31
  | _ => 0

/-- Days in all years strictly before year `y` (CPython
`datetime._days_before_year`, a closed formula). -/
def days_before_year (y : Nat) : Nat :=
  365 * (y - 1) + (y - 1) / 4 - (y - 1) / 100 + (y - 1) / 400

/-- Days in the months of year `y` strictly before month `m` (CPython
`datetime._days_before_month`: the `_DAYS_BEFORE_MONTH` table plus a
leap-day adjustment for months after February). -/
def days_before_month (y m : Nat) : Nat :=
  (match m with
   | 1 => 0
   | 2 => 31
   | 3 => 59
   | 4 => 90
   | 5 => 120
   | 6 => 151
   | 7 => 181
   | 8 => 212
   | 9 => 243
   | 10 => 273
   | 11 => 304
   | 12 => 334
   | _ => 0)
  + (if 2 < m ∧ isLeap y = true then 1 else 0)

/-- Proleptic-Gregorian ordinal of a date, with 0001-01-01 as day 1
(CPython `datetime._ymd2ord`). -/
def toOrdinal (y m d : Nat) : Nat :=
  days_before_year y + days_before_month y m + d

/-- The six clock fields of a parsed timestamp. -/
structure DateTimeParts where
  y : Nat
  mo : Nat
  dy : Nat
  hh : Nat
  mi : Nat
  ss : Nat
deriving DecidableEq, Repr

/-- A parsed UTC offset: sign (`true` = `+`), hours, minutes. -/
structure TzOff where
  pos : Bool
  oh : Nat
  om : Nat
deriving DecidableEq, Repr

/-- The signed offset in seconds. -/
def offSecs (o : TzOff) : Int :=
  (if o.pos then 1 else -1) * ((o.oh : Int) * 3600 + (o.om : Int) * 60)

/-- `int(dt.timestamp())` for an offset-aware datetime with whole
seconds: seconds since 1970-01-01T00:00:00+00:00, via CPython's epoch
ordinal 719163 (`date(1970, 1, 1).toordinal()`). -/
def epochSecs (dt : DateTimeParts) (o : TzOff) : Int :=
  ((toOrdinal dt.y dt.mo dt.dy : Int) - 719163) * 86400
    + (dt.hh : Int) * 3600 + (dt.mi : Int) * 60 + (dt.ss : Int) - offSecs o

/-- The range checks `datetime.fromisoformat` applies to the clock
fields (`MINYEAR`/`MAXYEAR`, month, day-of-month, hour, minute,
second). -/
def validDT (dt : DateTimeParts) : Bool :=
  1 ≤ dt.y && dt.y ≤ 9999 && 1 ≤ dt.mo && dt.mo ≤ 12 &&
  1 ≤ dt.dy && dt.dy ≤ daysInMonth dt.y dt.mo &&
  dt.hh ≤ 23 && dt.mi ≤ 59 && dt.ss ≤ 59

/-- The range checks for a `±HH:MM` offset (a `timedelta` strictly
between -24 and +24 hours with minutes below 60). -/
def validOff (o : TzOff) : Bool := o.oh ≤ 23 && o.om ≤ 59

/-- Model of `datetime.fromisoformat` on the offset-aware fragment
`YYYY-MM-DDTHH:MM:SS±HH:MM`: a fixed-width parse followed by the range
checks.  Anything else is a parse failure (`ValueError`). -/
def parseFull : List Char → Option (DateTimeParts × TzOff)
  | [y1, y2, y3, y4, '-', m1, m2, '-', d1, d2, 'T',
     h1, h2, ':', n1, n2, ':', s1, s2, sg, o1, o2, ':', p1, p2] =>
    if y1.isDigit && y2.isDigit && y3.isDigit && y4.isDigit &&
       m1.isDigit && m2.isDigit && d1.isDigit && d2.isDigit &&
       h1.isDigit && h2.isDigit && n1.isDigit && n2.isDigit &&
       s1.isDigit && s2.isDigit && o1.isDigit && o2.isDigit &&
       p1.isDigit && p2.isDigit && (sg == '+' || sg == '-') then
      let dt : DateTimeParts :=
        { y := 1000 * dVal y1 + 100 * dVal y2 + 10 * dVal y3 + dVal y4
          mo := 10 * dVal m1 + dVal m2
          dy := 10 * dVal d1 + dVal d2
          hh := 10 * dVal h1 + dVal h2
          mi := 10 * dVal n1 + dVal n2
          ss := 10 * dVal s1 + dVal s2 }
      let o : TzOff :=
        { pos := sg == '+'
          oh := 10 * dVal o1 + dVal o2
          om := 10 * dVal p1 + dVal p2 }
      if validDT dt && validOff o then some (dt, o) else none
    else none
  | _ => none

/-- `iso_to_unix_timestamp` (lines 16-19): replace `Z` with `+00:00`,
parse with `fromisoformat`, convert with `int(dt.timestamp())`.
`none` models the propagated `ValueError`. -/
def iso_to_unix_timestamp (s : String) : Option Int :=
  (parseFull (replaceZ s.data)).map (fun p => epochSecs p.1 p.2)

/-- `generate_title` (lines 21-24): the first 50 characters of the
stripped message, or `"New chat"` when that is empty. -/
def generate_title (first_message : String) : String :=
  let title := (pyStrip first_message.data).take 50
  if title = [] then "New chat" else ⟨title⟩

/-- The title logic of `migrate` (lines 76-82) for a conversation whose
`chat_messages` is non-empty: `conv.get('name', '').strip()` if truthy,
else `generate_title` of the first message's text when that is present
and truthy, else the literal `"New chat"`. -/
def deriveTitle (rawName : String) (firstText : Option String) : String :=
  let title := pyStrip rawName.data
  if title = [] then
    match firstText with
    | some t => if t = "" then "New chat" else generate_title t
    | none => "New chat"
  else ⟨title⟩

/-- A source message object from `conversations.json`; absent keys are
`none`. -/
structure SrcMsg where
  uuid : Option String
  sender : Option String
  text : Option String
  created_at : Option String
deriving DecidableEq, Repr

/-- A source conversation object from `conversations.json`. -/
structure SrcConv where
  uuid : Option String
  name : Option String
  created_at : Option String
  chat_messages : Option (List SrcMsg)
deriving DecidableEq, Repr

/-- A row of the `conversations` table. -/
structure ConvRow where
  id : String
  title : String
  model : String
  created_at : Int
deriving DecidableEq, Repr

/-- A row of the `messages` table. -/
structure MsgRow where
  id : String
  conversation_id : String
  role : String
  content : String
  created_at : Int
deriving DecidableEq, Repr

/-- The target store: the two tables, as lists of rows (row order is
not observable content). -/
structure DB where
  conversations : List ConvRow
  messages : List MsgRow
deriving DecidableEq, Repr

/-- The empty target store. -/
def emptyDB : DB := ⟨[], []⟩

/-- The three counters the script prints in its final summary. -/
structure Counters where
  conversations : Nat
  messages : Nat
  skipped : Nat
deriving DecidableEq, Repr

/-- The unhandled Python exceptions the loop can raise: `KeyError`
from a missing required key, `ValueError` from `fromisoformat`. -/
inductive MErr where
  | keyError (k : String)
  | valueError (v : String)
deriving DecidableEq, Repr

/-- SQLite `INSERT OR REPLACE` keyed on a `PRIMARY KEY` column:
replace every row carrying the new row's key, else append. -/
def upsertBy {α : Type} (key : α → String) (row : α) (tbl : List α) :
    List α :=
  if tbl.any (fun r => key r == key row) then
    tbl.map (fun r => if key r == key row then row else r)
  else tbl ++ [row]

/-- A sequence of `INSERT OR REPLACE` statements against one table. -/
def applyAll {α : Type} (key : α → String) (tbl : List α)
    (ws : List α) : List α :=
  ws.foldl (fun t w => upsertBy key w t) tbl

/-- Whether some row of the table carries primary key `k`. -/
def hasKey {α : Type} (key : α → String) (k : String) (tbl : List α) :
    Bool :=
  tbl.any (fun r => key r == k)

/-- The per-row effect of `INSERT OR REPLACE` when the key is present:
replace the row carrying the key, leave others alone. -/
def repRow {α : Type} (key : α → String) (w r : α) : α :=
  if key r == key w then w else r

/-- The composed per-row effect of a sequence of replacements. -/
def repAllRows {α : Type} (key : α → String) (ws : List α) (r : α) : α :=
  ws.foldl (fun r w => repRow key w r) r

/-- The last write in `ws` carrying key `k`, if any. -/
def lastWriteFor {α : Type} (key : α → String) (ws : List α)
    (k : String) : Option α :=
  ws.reverse.find? (fun w => key w == k)

/-- The body of the message loop (lines 97-111) for one message:
skip when `text` is absent or falsy or strips to empty, otherwise map
the role, fetch the required keys and insert the row. -/
def processMsg (convUuid : String) (st : DB × Counters) (msg : SrcMsg) :
    Except MErr (DB × Counters) :=
  match msg.text with
  | none => .ok st
  | some t =>
    if t = "" then .ok st
    else if pyStrip t.data = [] then .ok st
    else
      let role := if msg.sender = some "human" then "user" else "assistant"
      match msg.uuid with
      | none => .error (.keyError "uuid")
      | some u =>
        match msg.created_at with
        | none => .error (.keyError "created_at")
        | some ca =>
          match iso_to_unix_timestamp ca with
          | none => .error (.valueError ca)
          | some ts =>
            .ok ({ st.1 with
                     messages := upsertBy MsgRow.id
                       ⟨u, convUuid, role, t, ts⟩ st.1.messages },
                 { st.2 with messages := st.2.messages + 1 })

/-- The message loop of `migrate`, in source order. -/
def processMsgs (convUuid : String) (st : DB × Counters) :
    List SrcMsg → Except MErr (DB × Counters)
  | [] => .ok st
  | m :: ms => do
    let st' ← processMsg convUuid st m
    processMsgs convUuid st' ms

/-- The body of the conversation loop (lines 69-111) for one
conversation: skip (counting it) when `chat_messages` is absent or
empty, otherwise derive the title, insert the conversation row and run
the message loop. -/
def processConv (st : DB × Counters) (conv : SrcConv) :
    Except MErr (DB × Counters) :=
  match conv.chat_messages with
  | none => .ok (st.1, { st.2 with skipped := st.2.skipped + 1 })
  | some [] => .ok (st.1, { st.2 with skipped := st.2.skipped + 1 })
  | some (first :: rest) =>
    let title := deriveTitle (conv.name.getD "") first.text
    match conv.uuid with
    | none => .error (.keyError "uuid")
    | some u =>
      match conv.created_at with
      | none => .error (.keyError "created_at")
      | some ca =>
        match iso_to_unix_timestamp ca with
        | none => .error (.valueError ca)
        | some ts =>
          processMsgs u
            ({ st.1 with
                 conversations := upsertBy ConvRow.id
                   ⟨u, title, "gemini-2.0-flash", ts⟩ st.1.conversations },
             { st.2 with conversations := st.2.conversations + 1 })
            (first :: rest)

/-- The conversation loop of `migrate` (lines 65-111), threading the
store and the three counters; an error is an unhandled exception
escaping the loop. -/
def migrate : List SrcConv → DB × Counters → Except MErr (DB × Counters)
  | [], st => .ok st
  | conv :: rest, st => do
    let st' ← processConv st conv
    migrate rest st'

/-- The zero counters `migrate` starts from (lines 65-67). -/
def initCounters : Counters := ⟨0, 0, 0⟩

/-- The whole run as observed from outside (lines 113-128): on success
the transaction commits and the process exits 0; on an unhandled
exception nothing was committed, so the store keeps its prior rows, and
the process exits 1. -/
def mainRun (data : List SrcConv) (db : DB) : Nat × DB :=
  match migrate data (db, initCounters) with
  | .ok (db', _) => (0, db')
  | .error _ => (1, db)

/-- The pure transform pass: one message to an optional message row
(`none` models the skip for empty text), mirroring `processMsg`. -/
def transformMsg (convUuid : String) (msg : SrcMsg) :
    Except MErr (Option MsgRow) :=
  match msg.text with
  | none => .ok none
  | some t =>
    if t = "" then .ok none
    else if pyStrip t.data = [] then .ok none
    else
      let role := if msg.sender = some "human" then "user" else "assistant"
      match msg.uuid with
      | none => .error (.keyError "uuid")
      | some u =>
        match msg.created_at with
        | none => .error (.keyError "created_at")
        | some ca =>
          match iso_to_unix_timestamp ca with
          | none => .error (.valueError ca)
          | some ts => .ok (some ⟨u, convUuid, role, t, ts⟩)

/-- The transform pass over a conversation's message list: the message
rows to be written, in source order. -/
def transformMsgs (convUuid : String) :
    List SrcMsg → Except MErr (List MsgRow)
  | [] => .ok []
  | m :: ms => do
    let r ← transformMsg convUuid m
    let rest ← transformMsgs convUuid ms
    match r with
    | none => .ok rest
    | some row => .ok (row :: rest)

/-- The transform pass for one conversation: `none` models the skip for
an absent or empty `chat_messages` list. -/
def transformConv (conv : SrcConv) :
    Except MErr (Option (ConvRow × List MsgRow)) :=
  match conv.chat_messages with
  | none => .ok none
  | some [] => .ok none
  | some (first :: rest) =>
    let title := deriveTitle (conv.name.getD "") first.text
    match conv.uuid with
    | none => .error (.keyError "uuid")
    | some u =>
      match conv.created_at with
      | none => .error (.keyError "created_at")
      | some ca =>
        match iso_to_unix_timestamp ca with
        | none => .error (.valueError ca)
        | some ts =>
          (transformMsgs u (first :: rest)).map
            (fun ms => some (⟨u, title, "gemini-2.0-flash", ts⟩, ms))

/-- The transform pass over the whole input: the conversation rows, the
message rows and the skipped-conversation count, all independent of the
target store. -/
def transform : List SrcConv →
    Except MErr (List ConvRow × List MsgRow × Nat)
  | [] => .ok ([], [], 0)
  | conv :: rest => do
    let r ← transformConv conv
    let (wc, wm, sk) ← transform rest
    match r with
    | none => .ok (wc, wm, sk + 1)
    | some (crow, mrows) => .ok (crow :: wc, mrows ++ wm, sk)

/-- A message is eligible when its `text` is present and does not strip
to empty (the condition of line 98). -/
def eligibleMsg (m : SrcMsg) : Bool :=
  match m.text with
  | none => false
  | some t => !(pyStrip t.data = [] : Bool)

/-- A conversation the loop skips: `chat_messages` absent or empty
(the condition of line 71). -/
def isEmptyConv (conv : SrcConv) : Bool :=
  match conv.chat_messages with
  | none => true
  | some [] => true
  | some (_ :: _) => false

/-- No stored message references a missing conversation. -/
def noOrphans (db : DB) : Prop :=
  ∀ m ∈ db.messages, ∃ c ∈ db.conversations, m.conversation_id = c.id

/-- Independent calendar bookkeeping: the length of a year. -/
def daysInYearN (y : Nat) : Nat := if isLeap y then 366 else 365

/-- Independent calendar bookkeeping: total days in years `1..y`,
defined by recursion rather than by CPython's closed formula. -/
def daysUpTo : Nat → Nat
  | 0 => 0
  | y + 1 => daysUpTo y + daysInYearN (y + 1)

/-- Independent calendar bookkeeping: total days in months `1..m` of
year `y`, defined by recursion rather than by CPython's prefix-sum
table. -/
def sumMonths (y : Nat) : Nat → Nat
  | 0 => 0
  | m + 1 => sumMonths y m + daysInMonth y (m + 1)

/-- The day count of a date relative to 1970-01-01, from the recursive
calendar definitions. -/
def naiveDaysSinceEpoch (dt : DateTimeParts) : Int :=
  ((daysUpTo (dt.y - 1) + sumMonths dt.y (dt.mo - 1) + (dt.dy - 1) : Nat) : Int)
    - (daysUpTo 1969 : Nat)

/-- The Unix epoch seconds of an instant, from the recursive calendar
definitions: the specification-side answer `iso_to_unix_timestamp` is
checked against. -/
def specEpoch (dt : DateTimeParts) (o : TzOff) : Int :=
  naiveDaysSinceEpoch dt * 86400
    + (dt.hh : Int) * 3600 + (dt.mi : Int) * 60 + (dt.ss : Int) - offSecs o

/-- Render two decimal digits. -/
def twoDigits (n : Nat) : List Char := [dChar (n / 10), dChar (n % 10)]

/-- Render four decimal digits. -/
def fourDigits (n : Nat) : List Char :=
  [dChar (n / 1000), dChar (n / 100 % 10), dChar (n / 10 % 10), dChar (n % 10)]

/-- Render the clock part `YYYY-MM-DDTHH:MM:SS` of a timestamp. -/
def renderDT (dt : DateTimeParts) : List Char :=
  fourDigits dt.y ++ '-' :: twoDigits dt.mo ++ '-' :: twoDigits dt.dy
    ++ 'T' :: twoDigits dt.hh ++ ':' :: twoDigits dt.mi ++ ':' :: twoDigits dt.ss

/-- Render a `±HH:MM` offset. -/
def renderOff (o : TzOff) : List Char :=
  (if o.pos then '+' else '-') :: twoDigits o.oh ++ ':' :: twoDigits o.om

/-- Render a timestamp with an explicit offset. -/
def renderFull (dt : DateTimeParts) (o : TzOff) : String :=
  ⟨renderDT dt ++ renderOff o⟩

/-- Render a timestamp with the trailing-`Z` UTC alias. -/
def renderZulu (dt : DateTimeParts) : String := ⟨renderDT dt ++ ['Z']⟩

/-- The UTC offset `+00:00`. -/
def utcOff : TzOff := ⟨true, 0, 0⟩

/-- A source message with the given text, with valid bookkeeping
fields. -/
def mkMsg (u : String) (sender : String) (t : String) : SrcMsg :=
  ⟨some u, some sender, some t, some "2024-01-01T00:00:00Z"⟩

/-- A conversation whose only message has whitespace-only text: no
message is eligible, yet `chat_messages` is non-empty. -/
def wsConv : SrcConv :=
  ⟨some "c1", some "Hello", some "2024-01-01T00:00:00Z",
   some [mkMsg "m1" "human" "   "]⟩

/-- The end-to-end scenario input: one conversation with three messages
of which one has empty text, and one conversation with no messages. -/
def scenarioInput : List SrcConv :=
  [⟨some "cA", some "First", some "2024-01-01T00:00:00Z",
    some [mkMsg "mA1" "human" "hi",
          mkMsg "mA2" "assistant" "",
          mkMsg "mA3" "assistant" "hello there"]⟩,
   ⟨some "cB", some "Second", some "2024-01-01T00:00:00Z", some []⟩]

/-- A small valid input for exercising a full successful run. -/
def smallInput : List SrcConv :=
  [⟨some "c1", some "Title", some "2024-01-01T00:00:00Z",
    some [mkMsg "m1" "human" "hi"]⟩]

/-- The store `smallInput` produces from an empty store. -/
def smallDB : DB :=
  ⟨[⟨"c1", "Title", "gemini-2.0-flash", 1704067200⟩],
   [⟨"m1", "c1", "user", "hi", 1704067200⟩]⟩

/-- A conversation with messages but no `uuid` key: a `KeyError` once
it is not skipped. -/
def badConv : SrcConv :=
  ⟨none, some "Bad", some "2024-01-01T00:00:00Z",
   some [mkMsg "m9" "human" "hey"]⟩

/-- The field problems of a non-skipped conversation that raise an
unhandled exception in the loop: a missing `uuid` key, a missing
`created_at` key, or a `created_at` value `fromisoformat` rejects. -/
def badConvFields (conv : SrcConv) : Prop :=
  conv.uuid = none ∨ conv.created_at = none ∨
    ∃ ca, conv.created_at = some ca ∧ iso_to_unix_timestamp ca = none

/-- The field problems of an eligible message that raise an unhandled
exception in the loop. -/
def badMsgFields (m : SrcMsg) : Prop :=
  m.uuid = none ∨ m.created_at = none ∨
    ∃ ca, m.created_at = some ca ∧ iso_to_unix_timestamp ca = none

/-- The title derivation in the specification's words: the trimmed raw
name when non-empty, else the first 50 characters of the trimmed first
message text when that is non-empty, else the literal default. -/
def deriveTitleSpec (rawName : String) (firstText : Option String) :
    String :=
  if pyStrip rawName.data ≠ [] then ⟨pyStrip rawName.data⟩
  else
    match firstText with
    | some t =>
      if pyStrip t.data ≠ [] then ⟨(pyStrip t.data).take 50⟩
      else "New chat"
    | none => "New chat"

/-- A conversation with an empty `chat_messages` list and invalid other
fields (no `uuid`, unparseable `created_at`). -/
def noMsgsConv : SrcConv := ⟨none, none, some "garbage", some []⟩

/-- The store `[wsConv]` produces from an empty store: the conversation
row is present even though no message was eligible. -/
def wsDB : DB :=
  ⟨[⟨"c1", "Hello", "gemini-2.0-flash", 1704067200⟩], []⟩

/-- The store `scenarioInput` produces from an empty store. -/
def scenarioDB : DB :=
  ⟨[⟨"cA", "First", "gemini-2.0-flash", 1704067200⟩],
   [⟨"mA1", "cA", "user", "hi", 1704067200⟩,
    ⟨"mA3", "cA", "assistant", "hello there", 1704067200⟩]⟩

/-! ### Generic facts about `INSERT OR REPLACE` sequences -/

lemma hasKey_iff {α : Type} (key : α → String) (k : String)
    (tbl : List α) : hasKey key k tbl = true ↔ ∃ r ∈ tbl, key r = k := by
  simp [hasKey, List.any_eq_true]

lemma key_repRow {α : Type} (key : α → String) (w r : α) :
    key (repRow key w r) = key r := by
  by_cases h : key r = key w
  · simp [repRow, h]
  · simp [repRow, h]

lemma upsertBy_pos {α : Type} (key : α → String) (w : α) (tbl : List α)
    (h : hasKey key (key w) tbl = true) :
    upsertBy key w tbl = tbl.map (repRow key w) := by
  unfold upsertBy
  rw [if_pos]
  · rfl
  · exact h

lemma upsertBy_neg {α : Type} (key : α → String) (w : α) (tbl : List α)
    (h : hasKey key (key w) tbl = false) :
    upsertBy key w tbl = tbl ++ [w] := by
  unfold upsertBy
  rw [if_neg]
  simp only [hasKey] at h
  simp [h]

lemma hasKey_map_repRow {α : Type} (key : α → String) (k : String)
    (w : α) (tbl : List α) :
    hasKey key k (tbl.map (repRow key w)) = hasKey key k tbl := by
  simp only [hasKey, List.any_map]
  congr 1
  funext r
  simp [Function.comp, key_repRow]

lemma hasKey_upsertBy_self {α : Type} (key : α → String) (w : α)
    (tbl : List α) : hasKey key (key w) (upsertBy key w tbl) = true := by
  by_cases h : hasKey key (key w) tbl = true
  · rw [upsertBy_pos key w tbl h, hasKey_map_repRow]
    exact h
  · rw [upsertBy_neg key w tbl (by simpa using h)]
    simp only [hasKey_iff]
    exact ⟨w, List.mem_append_right _ (List.mem_singleton_self w), rfl⟩

lemma hasKey_upsertBy_mono {α : Type} (key : α → String) (k : String)
    (w : α) (tbl : List α) (h : hasKey key k tbl = true) :
    hasKey key k (upsertBy key w tbl) = true := by
  by_cases hw : hasKey key (key w) tbl = true
  · rw [upsertBy_pos key w tbl hw, hasKey_map_repRow]
    exact h
  · rw [upsertBy_neg key w tbl (by simpa using hw)]
    rcases (hasKey_iff key k tbl).1 h with ⟨r, hr, hk⟩
    exact (hasKey_iff key k _).2 ⟨r, List.mem_append_left _ hr, hk⟩

lemma hasKey_applyAll_mono {α : Type} (key : α → String) (k : String)
    (ws : List α) : ∀ tbl : List α, hasKey key k tbl = true →
    hasKey key k (applyAll key tbl ws) = true := by
  induction ws with
  | nil => exact fun tbl h => h
  | cons w ws ih =>
    intro tbl h
    exact ih (upsertBy key w tbl) (hasKey_upsertBy_mono key k w tbl h)

lemma hasKey_applyAll_of_mem {α : Type} (key : α → String) (w : α)
    (ws : List α) (hw : w ∈ ws) : ∀ tbl : List α,
    hasKey key (key w) (applyAll key tbl ws) = true := by
  induction ws with
  | nil => cases hw
  | cons x ws ih =>
    intro tbl
    rcases List.mem_cons.1 hw with h | h
    · subst h
      exact hasKey_applyAll_mono key (key w) ws _
        (hasKey_upsertBy_self key w tbl)
    · exact ih h _

lemma applyAll_of_all_hasKey {α : Type} (key : α → String)
    (ws : List α) : ∀ tbl : List α,
    (∀ w ∈ ws, hasKey key (key w) tbl = true) →
    applyAll key tbl ws = tbl.map (repAllRows key ws) := by
  induction ws with
  | nil =>
    intro tbl _
    show tbl = tbl.map (repAllRows key [])
    have h : ∀ l : List α, l.map (repAllRows key []) = l := by
      intro l
      induction l with
      | nil => rfl
      | cons a l ih => simp only [List.map_cons, ih]; rfl
    exact (h tbl).symm
  | cons w ws ih =>
    intro tbl h
    have h1 : hasKey key (key w) tbl = true := h w (List.mem_cons_self w ws)
    show applyAll key (upsertBy key w tbl) ws = _
    rw [upsertBy_pos key w tbl h1,
        ih (tbl.map (repRow key w))
          (fun x hx => by
            rw [hasKey_map_repRow]
            exact h x (List.mem_cons_of_mem w hx)),
        List.map_map]
    rfl

lemma lastWriteFor_cons {α : Type} (key : α → String) (w : α)
    (ws : List α) (k : String) :
    lastWriteFor key (w :: ws) k =
      (lastWriteFor key ws k).or
        (if key w == k then some w else none) := by
  unfold lastWriteFor
  rw [List.reverse_cons, List.find?_append]
  congr 1
  rw [List.find?_cons]
  cases hw : (key w == k) <;> simp [List.find?]

lemma repAllRows_eq_lastWrite {α : Type} (key : α → String)
    (ws : List α) : ∀ r : α,
    repAllRows key ws r = (lastWriteFor key ws (key r)).getD r := by
  induction ws with
  | nil => intro r; rfl
  | cons w ws ih =>
    intro r
    have hstep : repAllRows key (w :: ws) r
        = repAllRows key ws (repRow key w r) := rfl
    have hkw : key (repRow key w r) = key r := key_repRow key w r
    rw [hstep, ih (repRow key w r), hkw, lastWriteFor_cons]
    cases h : lastWriteFor key ws (key r) with
    | some x => simp [Option.or_some]
    | none =>
      by_cases hk : key w = key r
      · simp [repRow, hk, Option.none_or]
      · have h1 : (key r == key w) = false := by
          simp only [beq_eq_false_iff_ne, ne_eq]
          exact fun hc => hk hc.symm
        have h2 : (key w == key r) = false := by
          simp only [beq_eq_false_iff_ne, ne_eq]
          exact hk
        simp [repRow, h1, h2, Option.none_or]

lemma mem_upsertBy {α : Type} (key : α → String) (w r : α)
    (tbl : List α) (h : r ∈ upsertBy key w tbl) : r = w ∨ r ∈ tbl := by
  by_cases hk : hasKey key (key w) tbl = true
  · rw [upsertBy_pos key w tbl hk] at h
    rcases List.mem_map.1 h with ⟨r0, hr0, hrep⟩
    by_cases hc : key r0 = key w
    · left
      rw [← hrep]
      simp [repRow, hc]
    · right
      have : repRow key w r0 = r0 := by simp [repRow, hc]
      rw [← hrep, this]
      exact hr0
  · rw [upsertBy_neg key w tbl (by simpa using hk)] at h
    rcases List.mem_append.1 h with h | h
    · exact Or.inr h
    · exact Or.inl (List.mem_singleton.1 h)

lemma upsertBy_key_eq {α : Type} (key : α → String) (w r : α)
    (tbl : List α) (h : r ∈ upsertBy key w tbl)
    (hk : key r = key w) : r = w := by
  by_cases hp : hasKey key (key w) tbl = true
  · rw [upsertBy_pos key w tbl hp] at h
    rcases List.mem_map.1 h with ⟨r0, _, hrep⟩
    by_cases hc : key r0 = key w
    · rw [← hrep]; simp [repRow, hc]
    · exfalso
      have : repRow key w r0 = r0 := by simp [repRow, hc]
      rw [← hrep, this] at hk
      exact hc hk
  · rw [upsertBy_neg key w tbl (by simpa using hp)] at h
    rcases List.mem_append.1 h with h | h
    · exfalso
      have : hasKey key (key w) tbl = true :=
        (hasKey_iff key (key w) tbl).2 ⟨r, h, hk⟩
      exact hp this
    · exact List.mem_singleton.1 h

lemma mem_applyAll {α : Type} (key : α → String) (ws : List α) :
    ∀ tbl r, r ∈ applyAll key tbl ws → r ∈ tbl ∨ r ∈ ws := by
  induction ws with
  | nil => exact fun tbl r h => Or.inl h
  | cons w ws ih =>
    intro tbl r h
    rcases ih (upsertBy key w tbl) r h with h | h
    · rcases mem_upsertBy key w r tbl h with h | h
      · exact Or.inr (h ▸ List.mem_cons_self w ws)
      · exact Or.inl h
    · exact Or.inr (List.mem_cons_of_mem w h)

lemma applyAll_pass {α : Type} (key : α → String) (ws : List α) :
    ∀ tbl r, r ∈ applyAll key tbl ws →
    lastWriteFor key ws (key r) = none → r ∈ tbl := by
  induction ws with
  | nil => exact fun tbl r h _ => h
  | cons w ws ih =>
    intro tbl r h hnone
    rw [lastWriteFor_cons] at hnone
    cases hlast : lastWriteFor key ws (key r) with
    | some x => rw [hlast, Option.or_some] at hnone; cases hnone
    | none =>
      rw [hlast, Option.none_or] at hnone
      have hne : (key w == key r) = false := by
        by_cases hk : key w = key r
        · rw [if_pos (by simp [hk])] at hnone; cases hnone
        · simp [hk]
      have hmem : r ∈ upsertBy key w tbl := ih (upsertBy key w tbl) r h hlast
      by_cases hasw : hasKey key (key w) tbl = true
      · rw [upsertBy_pos key w tbl hasw] at hmem
        rcases List.mem_map.1 hmem with ⟨r0, hr0, hrep⟩
        by_cases hc : key r0 = key w
        · exfalso
          have : r = w := by rw [← hrep]; simp [repRow, hc]
          rw [this] at hne
          simp at hne
        · have : repRow key w r0 = r0 := by simp [repRow, hc]
          rw [← hrep, this]
          exact hr0
      · rw [upsertBy_neg key w tbl (by simpa using hasw)] at hmem
        rcases List.mem_append.1 hmem with h' | h'
        · exact h'
        · exfalso
          have : r = w := List.mem_singleton.1 h'
          rw [this] at hne
          simp at hne

lemma applyAll_last {α : Type} (key : α → String) (ws : List α) :
    ∀ tbl r x, r ∈ applyAll key tbl ws →
    lastWriteFor key ws (key r) = some x → r = x := by
  induction ws with
  | nil => intro tbl r x _ hx; cases hx
  | cons w ws ih =>
    intro tbl r x h hx
    rw [lastWriteFor_cons] at hx
    cases hlast : lastWriteFor key ws (key r) with
    | some x' =>
      rw [hlast, Option.or_some] at hx
      cases hx
      exact ih (upsertBy key w tbl) r x h hlast
    | none =>
      rw [hlast, Option.none_or] at hx
      have hk : key w = key r := by
        by_cases hk : key w = key r
        · exact hk
        · rw [if_neg (by simp [hk])] at hx; cases hx
      have hxw : x = w := by
        rw [if_pos (by simp [hk])] at hx
        cases hx
        rfl
      have hmem : r ∈ upsertBy key w tbl :=
        applyAll_pass key ws (upsertBy key w tbl) r h hlast
      rw [hxw]
      exact upsertBy_key_eq key w r tbl hmem hk.symm

lemma list_map_self {α : Type} (f : α → α) (l : List α)
    (h : ∀ a ∈ l, f a = a) : l.map f = l := by
  rw [List.map_congr_left h]
  exact List.map_id l

lemma applyAll_idem {α : Type} (key : α → String) (tbl ws : List α) :
    applyAll key (applyAll key tbl ws) ws = applyAll key tbl ws := by
  rw [applyAll_of_all_hasKey key ws (applyAll key tbl ws)
        (fun w hw => hasKey_applyAll_of_mem key w ws hw tbl)]
  apply list_map_self
  intro r hr
  rw [repAllRows_eq_lastWrite]
  cases h : lastWriteFor key ws (key r) with
  | none => rfl
  | some x =>
    rw [Option.getD_some]
    exact (applyAll_last key ws tbl r x hr h).symm

/-! ### The loop as a transform pass followed by a write pass -/

lemma applyAll_cons {α : Type} (key : α → String) (tbl : List α)
    (w : α) (ws : List α) :
    applyAll key tbl (w :: ws) = applyAll key (upsertBy key w tbl) ws := rfl

lemma applyAll_append {α : Type} (key : α → String) (tbl : List α)
    (l1 l2 : List α) :
    applyAll key tbl (l1 ++ l2) = applyAll key (applyAll key tbl l1) l2 :=
  List.foldl_append _ _ _ _

lemma bindE_ok {ε α β : Type} (a : α) (f : α → Except ε β) :
    (do let x ← (Except.ok a : Except ε α); f x) = f a := rfl

lemma bindE_err {ε α β : Type} (e : ε) (f : α → Except ε β) :
    (do let x ← (Except.error e : Except ε α); f x) = Except.error e := rfl

lemma mapE_ok {ε α β : Type} (f : α → β) (a : α) :
    Except.map f (Except.ok a : Except ε α) = Except.ok (f a) := rfl

lemma mapE_err {ε α β : Type} (f : α → β) (e : ε) :
    Except.map f (Except.error e : Except ε α) = Except.error e := rfl

lemma bindX_ok {ε α β : Type} (a : α) (f : α → Except ε β) :
    (Except.ok a : Except ε α).bind f = f a := rfl

lemma bindX_err {ε α β : Type} (e : ε) (f : α → Except ε β) :
    (Except.error e : Except ε α).bind f = Except.error e := rfl

lemma processMsg_eq (convUuid : String) (db : DB) (c : Counters)
    (msg : SrcMsg) :
    processMsg convUuid (db, c) msg =
      (transformMsg convUuid msg).map
        (fun r => match r with
          | none => (db, c)
          | some row =>
            ({ db with messages := upsertBy MsgRow.id row db.messages },
             { c with messages := c.messages + 1 })) := by
  rcases msg with ⟨u, snd, txt, ca⟩
  cases txt with
  | none => rfl
  | some t =>
    by_cases h1 : t = ""
    · simp [processMsg, transformMsg, h1, Except.map]
    · by_cases h2 : pyStrip t.data = []
      · simp [processMsg, transformMsg, h1, h2, Except.map]
      · cases u with
        | none => simp [processMsg, transformMsg, h1, h2, Except.map]
        | some uu =>
          cases ca with
          | none => simp [processMsg, transformMsg, h1, h2, Except.map]
          | some cca =>
            cases hts : iso_to_unix_timestamp cca with
            | none =>
              simp [processMsg, transformMsg, h1, h2, hts, Except.map]
            | some ts =>
              simp [processMsg, transformMsg, h1, h2, hts, Except.map]

lemma processMsgs_eq (convUuid : String) (ms : List SrcMsg) :
    ∀ (db : DB) (c : Counters),
    processMsgs convUuid (db, c) ms =
      (transformMsgs convUuid ms).map
        (fun rows =>
          ({ db with messages := applyAll MsgRow.id db.messages rows },
           { c with messages := c.messages + rows.length })) := by
  induction ms with
  | nil => intro db c; rfl
  | cons m ms ih =>
    intro db c
    have hl : processMsgs convUuid (db, c) (m :: ms) =
        (processMsg convUuid (db, c) m).bind
          (fun st' => processMsgs convUuid st' ms) := rfl
    have hr : transformMsgs convUuid (m :: ms) =
        (transformMsg convUuid m).bind (fun r =>
          (transformMsgs convUuid ms).bind (fun rest =>
            match r with
            | none => Except.ok rest
            | some row => Except.ok (row :: rest))) := rfl
    rw [hl, hr, processMsg_eq]
    cases h : transformMsg convUuid m with
    | error e => simp only [mapE_err, bindX_err]
    | ok r =>
      cases r with
      | none =>
        simp only [mapE_ok, bindX_ok, ih db c]
        cases hrest : transformMsgs convUuid ms with
        | error e => simp only [mapE_err, bindX_err]
        | ok rows => simp only [mapE_ok, bindX_ok]
      | some row =>
        simp only [mapE_ok, bindX_ok,
          ih { db with messages := upsertBy MsgRow.id row db.messages }
             { c with messages := c.messages + 1 }]
        cases hrest : transformMsgs convUuid ms with
        | error e => simp only [mapE_err, bindX_err]
        | ok rows =>
          simp only [mapE_ok, bindX_ok]
          have hmsg : applyAll MsgRow.id
                (upsertBy MsgRow.id row db.messages) rows
              = applyAll MsgRow.id db.messages (row :: rows) :=
            (applyAll_cons _ _ _ _).symm
          have hlen : c.messages + 1 + rows.length
              = c.messages + (row :: rows).length := by
            rw [List.length_cons]
            omega
          show Except.ok
              (DB.mk db.conversations
                 (applyAll MsgRow.id (upsertBy MsgRow.id row db.messages) rows),
               Counters.mk c.conversations (c.messages + 1 + rows.length)
                 c.skipped)
            = Except.ok
              (DB.mk db.conversations
                 (applyAll MsgRow.id db.messages (row :: rows)),
               Counters.mk c.conversations
                 (c.messages + (row :: rows).length) c.skipped)
          rw [hmsg, hlen]

lemma processConv_eq (db : DB) (c : Counters) (conv : SrcConv) :
    processConv (db, c) conv =
      (transformConv conv).map
        (fun r => match r with
          | none => (db, { c with skipped := c.skipped + 1 })
          | some (crow, mrows) =>
            ({ conversations := upsertBy ConvRow.id crow db.conversations,
               messages := applyAll MsgRow.id db.messages mrows },
             { conversations := c.conversations + 1,
               messages := c.messages + mrows.length,
               skipped := c.skipped })) := by
  rcases conv with ⟨u, nm, ca, cm⟩
  cases cm with
  | none => rfl
  | some msgs =>
    cases msgs with
    | nil => rfl
    | cons first rest =>
      cases u with
      | none => rfl
      | some uu =>
        cases ca with
        | none => rfl
        | some cca =>
          cases hts : iso_to_unix_timestamp cca with
          | none => simp [processConv, transformConv, hts, Except.map]
          | some ts =>
            simp only [processConv, transformConv, hts]
            rw [processMsgs_eq]
            cases hm : transformMsgs uu (first :: rest) with
            | error e => simp [Except.map]
            | ok rows => simp [Except.map]

lemma migrate_eq (data : List SrcConv) :
    ∀ (db : DB) (c : Counters),
    migrate data (db, c) =
      (transform data).map
        (fun w =>
          ({ conversations := applyAll ConvRow.id db.conversations w.1,
             messages := applyAll MsgRow.id db.messages w.2.1 },
           { conversations := c.conversations + w.1.length,
             messages := c.messages + w.2.1.length,
             skipped := c.skipped + w.2.2 })) := by
  induction data with
  | nil => intro db c; rfl
  | cons conv rest ih =>
    intro db c
    have hl : migrate (conv :: rest) (db, c) =
        (processConv (db, c) conv).bind (fun st' => migrate rest st') := rfl
    have hr : transform (conv :: rest) =
        (transformConv conv).bind (fun r =>
          (transform rest).bind (fun w =>
            match r with
            | none => Except.ok (w.1, w.2.1, w.2.2 + 1)
            | some (crow, mrows) =>
              Except.ok (crow :: w.1, mrows ++ w.2.1, w.2.2))) := rfl
    rw [hl, hr, processConv_eq]
    cases h : transformConv conv with
    | error e => simp only [mapE_err, bindX_err]
    | ok r =>
      cases r with
      | none =>
        simp only [mapE_ok, bindX_ok,
          ih db { c with skipped := c.skipped + 1 }]
        cases hrest : transform rest with
        | error e => simp only [mapE_err, bindX_err]
        | ok w =>
          simp only [mapE_ok, bindX_ok]
          have hsk : c.skipped + 1 + w.2.2 = c.skipped + (w.2.2 + 1) := by
            omega
          show Except.ok
              (DB.mk (applyAll ConvRow.id db.conversations w.1)
                 (applyAll MsgRow.id db.messages w.2.1),
               Counters.mk (c.conversations + w.1.length)
                 (c.messages + w.2.1.length) (c.skipped + 1 + w.2.2))
            = Except.ok
              (DB.mk (applyAll ConvRow.id db.conversations w.1)
                 (applyAll MsgRow.id db.messages w.2.1),
               Counters.mk (c.conversations + w.1.length)
                 (c.messages + w.2.1.length) (c.skipped + (w.2.2 + 1)))
          rw [hsk]
      | some cw =>
        rcases cw with ⟨crow, mrows⟩
        simp only [mapE_ok, bindX_ok,
          ih { conversations := upsertBy ConvRow.id crow db.conversations,
               messages := applyAll MsgRow.id db.messages mrows }
             { conversations := c.conversations + 1,
               messages := c.messages + mrows.length,
               skipped := c.skipped }]
        cases hrest : transform rest with
        | error e => simp only [mapE_err, bindX_err]
        | ok w =>
          simp only [mapE_ok, bindX_ok]
          have hc : applyAll ConvRow.id
                (upsertBy ConvRow.id crow db.conversations) w.1
              = applyAll ConvRow.id db.conversations (crow :: w.1) :=
            (applyAll_cons _ _ _ _).symm
          have hm : applyAll MsgRow.id
                (applyAll MsgRow.id db.messages mrows) w.2.1
              = applyAll MsgRow.id db.messages (mrows ++ w.2.1) :=
            (applyAll_append _ _ _ _).symm
          have h1 : c.conversations + 1 + w.1.length
              = c.conversations + (crow :: w.1).length := by
            rw [List.length_cons]
            omega
          have h2 : c.messages + mrows.length + w.2.1.length
              = c.messages + (mrows ++ w.2.1).length := by
            rw [List.length_append]
            omega
          show Except.ok
              (DB.mk
                 (applyAll ConvRow.id
                   (upsertBy ConvRow.id crow db.conversations) w.1)
                 (applyAll MsgRow.id
                   (applyAll MsgRow.id db.messages mrows) w.2.1),
               Counters.mk (c.conversations + 1 + w.1.length)
                 (c.messages + mrows.length + w.2.1.length)
                 (c.skipped + w.2.2))
            = Except.ok
              (DB.mk
                 (applyAll ConvRow.id db.conversations (crow :: w.1))
                 (applyAll MsgRow.id db.messages (mrows ++ w.2.1)),
               Counters.mk (c.conversations + (crow :: w.1).length)
                 (c.messages + (mrows ++ w.2.1).length)
                 (c.skipped + w.2.2))
          rw [hc, hm, h1, h2]

/-! ### Calendar arithmetic: CPython's closed formulas against the
recursive day counts -/

lemma daysUpTo_closed (y : Nat) :
    daysUpTo y + y / 100 = 365 * y + y / 4 + y / 400 := by
  induction y with
  | zero => rfl
  | succ n ih =>
    have hdy : daysUpTo (n + 1) = daysUpTo n + daysInYearN (n + 1) := rfl
    have e4 : (n + 1) / 4 = if (n + 1) % 4 = 0 then n / 4 + 1 else n / 4 := by
      split <;> omega
    have e100 : (n + 1) / 100 =
        if (n + 1) % 100 = 0 then n / 100 + 1 else n / 100 := by
      split <;> omega
    have e400 : (n + 1) / 400 =
        if (n + 1) % 400 = 0 then n / 400 + 1 else n / 400 := by
      split <;> omega
    by_cases hm4 : (n + 1) % 4 = 0 <;>
    by_cases hm100 : (n + 1) % 100 = 0 <;>
    by_cases hm400 : (n + 1) % 400 = 0 <;>
      simp only [hm4, hm100, hm400, if_true, if_false, eq_self_iff_true,
        ite_true, ite_false] at e4 e100 e400 <;>
      first
      | (have hL : daysInYearN (n + 1) = 366 := by
           simp [daysInYearN, isLeap, hm4, hm100, hm400]
         omega)
      | (have hL : daysInYearN (n + 1) = 365 := by
           simp [daysInYearN, isLeap, hm4, hm100, hm400]
         omega)

lemma daysUpTo_1969 : daysUpTo 1969 = 719162 := by
  have h := daysUpTo_closed 1969
  norm_num at h
  omega

lemma days_before_year_eq (y : Nat) :
    days_before_year y = daysUpTo (y - 1) := by
  have h := daysUpTo_closed (y - 1)
  unfold days_before_year
  omega

lemma days_before_month_eq (y mo : Nat) (h1 : 1 ≤ mo) (h2 : mo ≤ 12) :
    days_before_month y mo = sumMonths y (mo - 1) := by
  interval_cases mo <;>
    cases hL : isLeap y <;>
      simp [days_before_month, sumMonths, daysInMonth, hL]

lemma validDT_fields (dt : DateTimeParts) (h : validDT dt = true) :
    1 ≤ dt.y ∧ dt.y ≤ 9999 ∧ 1 ≤ dt.mo ∧ dt.mo ≤ 12 ∧
    1 ≤ dt.dy ∧ dt.dy ≤ daysInMonth dt.y dt.mo ∧
    dt.hh ≤ 23 ∧ dt.mi ≤ 59 ∧ dt.ss ≤ 59 := by
  simp only [validDT, Bool.and_eq_true, decide_eq_true_eq] at h
  exact ⟨h.1.1.1.1.1.1.1.1, h.1.1.1.1.1.1.1.2, h.1.1.1.1.1.1.2,
    h.1.1.1.1.1.2, h.1.1.1.1.2, h.1.1.1.2, h.1.1.2, h.1.2, h.2⟩

lemma epochSecs_eq_spec (dt : DateTimeParts) (o : TzOff)
    (h : validDT dt = true) : epochSecs dt o = specEpoch dt o := by
  obtain ⟨hy1, hy2, hmo1, hmo2, hd1, hd2, hh1, hmi1, hss1⟩ :=
    validDT_fields dt h
  unfold epochSecs specEpoch naiveDaysSinceEpoch toOrdinal
  rw [days_before_year_eq dt.y,
      days_before_month_eq dt.y dt.mo hmo1 hmo2,
      daysUpTo_1969]
  omega

/-! ### Rendering a timestamp and parsing it back -/

lemma dChar_isDigit (n : Nat) (h : n < 10) : (dChar n).isDigit = true := by
  interval_cases n <;> decide

lemma dVal_dChar (n : Nat) (h : n < 10) : dVal (dChar n) = n := by
  interval_cases n <;> decide

lemma dChar_ne_Z (n : Nat) (h : n < 10) : dChar n ≠ 'Z' := by
  interval_cases n <;> decide

lemma twoDigit_val (n : Nat) (h : n < 100) :
    10 * dVal (dChar (n / 10)) + dVal (dChar (n % 10)) = n := by
  rw [dVal_dChar (n / 10) (by omega), dVal_dChar (n % 10) (by omega)]
  omega

lemma fourDigit_val (n : Nat) (h : n < 10000) :
    1000 * dVal (dChar (n / 1000)) + 100 * dVal (dChar (n / 100 % 10))
      + 10 * dVal (dChar (n / 10 % 10)) + dVal (dChar (n % 10)) = n := by
  rw [dVal_dChar (n / 1000) (by omega),
      dVal_dChar (n / 100 % 10) (by omega),
      dVal_dChar (n / 10 % 10) (by omega),
      dVal_dChar (n % 10) (by omega)]
  omega

lemma replaceZ_of_no_Z (l : List Char) (h : ∀ c ∈ l, c ≠ 'Z') :
    replaceZ l = l := by
  induction l with
  | nil => rfl
  | cons c cs ih =>
    have hc : c ≠ 'Z' := h c (List.mem_cons_self c cs)
    simp only [replaceZ, if_neg hc]
    rw [ih (fun x hx => h x (List.mem_cons_of_mem c hx))]

lemma replaceZ_append (l1 l2 : List Char) :
    replaceZ (l1 ++ l2) = replaceZ l1 ++ replaceZ l2 := by
  induction l1 with
  | nil => rfl
  | cons c cs ih =>
    by_cases hc : c = 'Z' <;> simp [replaceZ, hc, ih]

lemma daysInMonth_le_31 (y m : Nat) : daysInMonth y m ≤ 31 := by
  unfold daysInMonth
  split <;> first
  | omega
  | (split <;> omega)

lemma validOff_fields (o : TzOff) (h : validOff o = true) :
    o.oh ≤ 23 ∧ o.om ≤ 59 := by
  simpa [validOff, Bool.and_eq_true] using h

lemma parseFull_render (dt : DateTimeParts) (o : TzOff)
    (hdt : validDT dt = true) (hoff : validOff o = true) :
    parseFull (renderDT dt ++ renderOff o) = some (dt, o) := by
  obtain ⟨hy1, hy2, hmo1, hmo2, hd1, hd2, hh1, hmi1, hss1⟩ :=
    validDT_fields dt hdt
  have hdy31 : dt.dy ≤ 31 := le_trans hd2 (daysInMonth_le_31 dt.y dt.mo)
  have b01 : (dChar (dt.y / 1000)).isDigit = true := dChar_isDigit _ (by omega)
  have b02 : (dChar (dt.y / 100 % 10)).isDigit = true :=
    dChar_isDigit _ (by omega)
  have b03 : (dChar (dt.y / 10 % 10)).isDigit = true :=
    dChar_isDigit _ (by omega)
  have b04 : (dChar (dt.y % 10)).isDigit = true := dChar_isDigit _ (by omega)
  have b05 : (dChar (dt.mo / 10)).isDigit = true := dChar_isDigit _ (by omega)
  have b06 : (dChar (dt.mo % 10)).isDigit = true := dChar_isDigit _ (by omega)
  have b07 : (dChar (dt.dy / 10)).isDigit = true := dChar_isDigit _ (by omega)
  have b08 : (dChar (dt.dy % 10)).isDigit = true := dChar_isDigit _ (by omega)
  have b09 : (dChar (dt.hh / 10)).isDigit = true := dChar_isDigit _ (by omega)
  have b10 : (dChar (dt.hh % 10)).isDigit = true := dChar_isDigit _ (by omega)
  have b11 : (dChar (dt.mi / 10)).isDigit = true := dChar_isDigit _ (by omega)
  have b12 : (dChar (dt.mi % 10)).isDigit = true := dChar_isDigit _ (by omega)
  have b13 : (dChar (dt.ss / 10)).isDigit = true := dChar_isDigit _ (by omega)
  have b14 : (dChar (dt.ss % 10)).isDigit = true := dChar_isDigit _ (by omega)
  have hyv : 1000 * dVal (dChar (dt.y / 1000))
      + 100 * dVal (dChar (dt.y / 100 % 10))
      + 10 * dVal (dChar (dt.y / 10 % 10)) + dVal (dChar (dt.y % 10))
      = dt.y := fourDigit_val dt.y (by omega)
  have hmov : 10 * dVal (dChar (dt.mo / 10)) + dVal (dChar (dt.mo % 10))
      = dt.mo := twoDigit_val dt.mo (by omega)
  have hdyv : 10 * dVal (dChar (dt.dy / 10)) + dVal (dChar (dt.dy % 10))
      = dt.dy := twoDigit_val dt.dy (by omega)
  have hhhv : 10 * dVal (dChar (dt.hh / 10)) + dVal (dChar (dt.hh % 10))
      = dt.hh := twoDigit_val dt.hh (by omega)
  have hmiv : 10 * dVal (dChar (dt.mi / 10)) + dVal (dChar (dt.mi % 10))
      = dt.mi := twoDigit_val dt.mi (by omega)
  have hssv : 10 * dVal (dChar (dt.ss / 10)) + dVal (dChar (dt.ss % 10))
      = dt.ss := twoDigit_val dt.ss (by omega)
  rcases o with ⟨sgn, oh, om⟩
  obtain ⟨ho1, ho2⟩ := validOff_fields ⟨sgn, oh, om⟩ hoff
  simp only at ho1 ho2
  have b15 : (dChar (oh / 10)).isDigit = true := dChar_isDigit _ (by omega)
  have b16 : (dChar (oh % 10)).isDigit = true := dChar_isDigit _ (by omega)
  have b17 : (dChar (om / 10)).isDigit = true := dChar_isDigit _ (by omega)
  have b18 : (dChar (om % 10)).isDigit = true := dChar_isDigit _ (by omega)
  have hohv : 10 * dVal (dChar (oh / 10)) + dVal (dChar (oh % 10)) = oh :=
    twoDigit_val oh (by omega)
  have homv : 10 * dVal (dChar (om / 10)) + dVal (dChar (om % 10)) = om :=
    twoDigit_val om (by omega)
  cases sgn with
  | true =>
    have hre : renderDT dt ++ renderOff ⟨true, oh, om⟩ =
        [dChar (dt.y / 1000), dChar (dt.y / 100 % 10), dChar (dt.y / 10 % 10),
         dChar (dt.y % 10), '-', dChar (dt.mo / 10), dChar (dt.mo % 10), '-',
         dChar (dt.dy / 10), dChar (dt.dy % 10), 'T', dChar (dt.hh / 10),
         dChar (dt.hh % 10), ':', dChar (dt.mi / 10), dChar (dt.mi % 10), ':',
         dChar (dt.ss / 10), dChar (dt.ss % 10), '+', dChar (oh / 10),
         dChar (oh % 10), ':', dChar (om / 10), dChar (om % 10)] := rfl
    rw [hre]
    simp only [parseFull, b01, b02, b03, b04, b05, b06, b07, b08, b09, b10,
      b11, b12, b13, b14, b15, b16, b17, b18, hyv, hmov, hdyv, hhhv, hmiv,
      hssv, hohv, homv, Bool.and_true, Bool.true_and]
    have hsg : ((('+' == '+') : Bool) || '+' == '-') = true := rfl
    have hpb : (('+' == '+' : Bool)) = true := rfl
    have hmk : DateTimeParts.mk dt.y dt.mo dt.dy dt.hh dt.mi dt.ss = dt := rfl
    simp only [hsg, hpb, hmk, hdt, hoff]
    rfl
  | false =>
    have hre : renderDT dt ++ renderOff ⟨false, oh, om⟩ =
        [dChar (dt.y / 1000), dChar (dt.y / 100 % 10), dChar (dt.y / 10 % 10),
         dChar (dt.y % 10), '-', dChar (dt.mo / 10), dChar (dt.mo % 10), '-',
         dChar (dt.dy / 10), dChar (dt.dy % 10), 'T', dChar (dt.hh / 10),
         dChar (dt.hh % 10), ':', dChar (dt.mi / 10), dChar (dt.mi % 10), ':',
         dChar (dt.ss / 10), dChar (dt.ss % 10), '-', dChar (oh / 10),
         dChar (oh % 10), ':', dChar (om / 10), dChar (om % 10)] := rfl
    rw [hre]
    simp only [parseFull, b01, b02, b03, b04, b05, b06, b07, b08, b09, b10,
      b11, b12, b13, b14, b15, b16, b17, b18, hyv, hmov, hdyv, hhhv, hmiv,
      hssv, hohv, homv, Bool.and_true, Bool.true_and]
    have hsg : ((('-' == '+') : Bool) || '-' == '-') = true := rfl
    have hpb : (('-' == '+' : Bool)) = false := rfl
    have hmk : DateTimeParts.mk dt.y dt.mo dt.dy dt.hh dt.mi dt.ss = dt := rfl
    simp only [hsg, hpb, hmk, hdt, hoff]
    rfl

lemma render_no_Z (dt : DateTimeParts) (o : TzOff)
    (hdt : validDT dt = true) (hoff : validOff o = true) :
    ∀ c ∈ renderDT dt ++ renderOff o, c ≠ 'Z' := by
  obtain ⟨hy1, hy2, hmo1, hmo2, hd1, hd2, hh1, hmi1, hss1⟩ :=
    validDT_fields dt hdt
  have hdy31 : dt.dy ≤ 31 := le_trans hd2 (daysInMonth_le_31 dt.y dt.mo)
  rcases o with ⟨sgn, oh, om⟩
  obtain ⟨ho1, ho2⟩ := validOff_fields ⟨sgn, oh, om⟩ hoff
  simp only at ho1 ho2
  intro c hc
  cases sgn <;>
    simp only [renderDT, renderOff, fourDigits, twoDigits, List.cons_append,
      List.nil_append, List.mem_cons, List.not_mem_nil, or_false,
      show (if (true : Bool) = true then '+' else '-') = '+' from rfl,
      show (if (false : Bool) = true then '+' else '-') = '-' from rfl]
      at hc <;>
    rcases hc with rfl|rfl|rfl|rfl|rfl|rfl|rfl|rfl|rfl|rfl|rfl|rfl|rfl|rfl|
      rfl|rfl|rfl|rfl|rfl|rfl|rfl|rfl|rfl|rfl|rfl <;>
    first
    | decide
    | exact dChar_ne_Z _ (by omega)

lemma iso_renderFull (dt : DateTimeParts) (o : TzOff)
    (hdt : validDT dt = true) (hoff : validOff o = true) :
    iso_to_unix_timestamp (renderFull dt o) = some (epochSecs dt o) := by
  unfold iso_to_unix_timestamp renderFull
  rw [show (String.mk (renderDT dt ++ renderOff o)).data
      = renderDT dt ++ renderOff o from rfl]
  rw [replaceZ_of_no_Z _ (render_no_Z dt o hdt hoff),
      parseFull_render dt o hdt hoff]
  rfl

lemma iso_renderZulu (dt : DateTimeParts) (hdt : validDT dt = true) :
    iso_to_unix_timestamp (renderZulu dt) = some (epochSecs dt utcOff) := by
  unfold iso_to_unix_timestamp renderZulu
  rw [show (String.mk (renderDT dt ++ ['Z'])).data
      = renderDT dt ++ ['Z'] from rfl]
  rw [replaceZ_append]
  have h1 : replaceZ (renderDT dt) = renderDT dt :=
    replaceZ_of_no_Z _ (fun c hc =>
      render_no_Z dt utcOff hdt rfl c (List.mem_append_left _ hc))
  have h2 : replaceZ ['Z'] = renderOff utcOff := rfl
  rw [h1, h2, parseFull_render dt utcOff hdt rfl]
  rfl

/-! ### Facts about the transform pass -/

lemma eligibleMsg_strip (m : SrcMsg) (he : eligibleMsg m = true) :
    ∃ t, m.text = some t ∧ ¬ t = "" ∧ ¬ pyStrip t.data = [] := by
  rcases m with ⟨mu, msnd, mtxt, mca⟩
  cases mtxt with
  | none => simp [eligibleMsg] at he
  | some t =>
    have hst : ¬ pyStrip t.data = [] := by simpa [eligibleMsg] using he
    exact ⟨t, rfl, fun h0 => hst (by rw [h0]; rfl), hst⟩

lemma transformMsg_ok_fields (u : String) (m : SrcMsg)
    (res : Option MsgRow) (h : transformMsg u m = .ok res)
    (he : eligibleMsg m = true) : ¬ badMsgFields m := by
  obtain ⟨t, htxt, ht0, hst⟩ := eligibleMsg_strip m he
  rcases m with ⟨mu, msnd, mtxt, mca⟩
  simp only at htxt
  subst htxt
  simp only [transformMsg, if_neg ht0, if_neg hst] at h
  cases mu with
  | none => exact Except.noConfusion h
  | some u' =>
    cases mca with
    | none => exact Except.noConfusion h
    | some ca =>
      simp only [] at h
      cases hiso : iso_to_unix_timestamp ca with
      | none =>
        rw [hiso] at h
        exact Except.noConfusion h
      | some ts =>
        intro hb
        rcases hb with h1 | h2 | ⟨ca', hca', hiso'⟩
        · exact Option.noConfusion h1
        · exact Option.noConfusion h2
        · simp only at hca'
          cases hca'
          rw [hiso] at hiso'
          exact Option.noConfusion hiso'

lemma transformMsgs_ok_fields (u : String) (ms : List SrcMsg) :
    ∀ rows, transformMsgs u ms = .ok rows →
    ∀ m ∈ ms, eligibleMsg m = true → ¬ badMsgFields m := by
  induction ms with
  | nil => intro rows _ m hm; cases hm
  | cons m0 ms ih =>
    intro rows h m hm he
    have hr : transformMsgs u (m0 :: ms) =
        (transformMsg u m0).bind (fun r =>
          (transformMsgs u ms).bind (fun rest =>
            match r with
            | none => Except.ok rest
            | some row => Except.ok (row :: rest))) := rfl
    rw [hr] at h
    cases htm : transformMsg u m0 with
    | error e => rw [htm, bindX_err] at h; exact Except.noConfusion h
    | ok r =>
      rw [htm, bindX_ok] at h
      cases hrest : transformMsgs u ms with
      | error e => rw [hrest, bindX_err] at h; exact Except.noConfusion h
      | ok rows' =>
        rcases List.mem_cons.1 hm with hm0 | hm'
        · subst hm0
          exact transformMsg_ok_fields u m r htm he
        · exact ih rows' hrest m hm' he

lemma transformConv_ok_fields (conv : SrcConv)
    (r : Option (ConvRow × List MsgRow)) (h : transformConv conv = .ok r)
    (hne : isEmptyConv conv = false) :
    ¬ badConvFields conv ∧
    (∀ m ∈ conv.chat_messages.getD [], eligibleMsg m = true →
      ¬ badMsgFields m) := by
  rcases conv with ⟨cu, cn, cca, ccm⟩
  cases ccm with
  | none => simp [isEmptyConv] at hne
  | some msgs =>
    cases msgs with
    | nil => simp [isEmptyConv] at hne
    | cons first rest =>
      simp only [transformConv] at h
      cases cu with
      | none => exact Except.noConfusion h
      | some u =>
        cases cca with
        | none => exact Except.noConfusion h
        | some ca =>
          simp only [] at h
          cases hiso : iso_to_unix_timestamp ca with
          | none => rw [hiso] at h; exact Except.noConfusion h
          | some ts =>
            rw [hiso] at h
            simp only [] at h
            constructor
            · intro hb
              rcases hb with h1 | h2 | ⟨ca', hca', hiso'⟩
              · exact Option.noConfusion h1
              · exact Option.noConfusion h2
              · simp only at hca'
                cases hca'
                rw [hiso] at hiso'
                exact Option.noConfusion hiso'
            · intro m hm he
              cases hms : transformMsgs u (first :: rest) with
              | error e =>
                rw [hms, mapE_err] at h
                exact Except.noConfusion h
              | ok rows =>
                exact transformMsgs_ok_fields u (first :: rest) rows hms m
                  (by simpa using hm) he

lemma transform_ok_fields (data : List SrcConv) :
    ∀ w, transform data = .ok w →
    ∀ conv ∈ data, isEmptyConv conv = false →
    ¬ badConvFields conv ∧
    (∀ m ∈ conv.chat_messages.getD [], eligibleMsg m = true →
      ¬ badMsgFields m) := by
  induction data with
  | nil => intro w _ conv hc; cases hc
  | cons c0 rest ih =>
    intro w h conv hmem hne
    have hr : transform (c0 :: rest) =
        (transformConv c0).bind (fun r =>
          (transform rest).bind (fun wr =>
            match r with
            | none => Except.ok (wr.1, wr.2.1, wr.2.2 + 1)
            | some (crow, mrows) =>
              Except.ok (crow :: wr.1, mrows ++ wr.2.1, wr.2.2))) := rfl
    rw [hr] at h
    cases htc : transformConv c0 with
    | error e => rw [htc, bindX_err] at h; exact Except.noConfusion h
    | ok r =>
      rw [htc, bindX_ok] at h
      cases hrest : transform rest with
      | error e => rw [hrest, bindX_err] at h; exact Except.noConfusion h
      | ok w' =>
        rcases List.mem_cons.1 hmem with hm0 | hm'
        · subst hm0
          exact transformConv_ok_fields conv r htc hne
        · exact ih w' hrest conv hm' hne

lemma transformConv_none_imp (conv : SrcConv)
    (h : transformConv conv = .ok none) : isEmptyConv conv = true := by
  rcases conv with ⟨cu, cn, cca, ccm⟩
  cases ccm with
  | none => rfl
  | some msgs =>
    cases msgs with
    | nil => rfl
    | cons first rest =>
      simp only [transformConv] at h
      cases cu with
      | none => exact Except.noConfusion h
      | some u =>
        cases cca with
        | none => exact Except.noConfusion h
        | some ca =>
          simp only [] at h
          cases hiso : iso_to_unix_timestamp ca with
          | none => rw [hiso] at h; exact Except.noConfusion h
          | some ts =>
            rw [hiso] at h
            simp only [] at h
            cases hms : transformMsgs u (first :: rest) with
            | error e => rw [hms, mapE_err] at h; exact Except.noConfusion h
            | ok rows =>
              rw [hms, mapE_ok] at h
              injection h with h'
              exact Option.noConfusion h'

lemma transformConv_some_uuid (conv : SrcConv) (crow : ConvRow)
    (mrows : List MsgRow)
    (h : transformConv conv = .ok (some (crow, mrows))) :
    conv.uuid = some crow.id := by
  rcases conv with ⟨cu, cn, cca, ccm⟩
  cases ccm with
  | none =>
    simp only [transformConv] at h
    injection h with h'
    exact Option.noConfusion h'
  | some msgs =>
    cases msgs with
    | nil =>
      simp only [transformConv] at h
      injection h with h'
      exact Option.noConfusion h'
    | cons first rest =>
      simp only [transformConv] at h
      cases cu with
      | none => exact Except.noConfusion h
      | some u =>
        cases cca with
        | none => exact Except.noConfusion h
        | some ca =>
          simp only [] at h
          cases hiso : iso_to_unix_timestamp ca with
          | none => rw [hiso] at h; exact Except.noConfusion h
          | some ts =>
            rw [hiso] at h
            simp only [] at h
            cases hms : transformMsgs u (first :: rest) with
            | error e => rw [hms, mapE_err] at h; exact Except.noConfusion h
            | ok rows =>
              rw [hms, mapE_ok] at h
              injection h with h'
              injection h' with h''
              have hcrow : crow = ⟨u, deriveTitle (cn.getD "") first.text,
                  "gemini-2.0-flash", ts⟩ := by
                have := congrArg Prod.fst h''
                simpa using this.symm
              rw [hcrow]

lemma processConv_skip (st : DB × Counters) (conv : SrcConv)
    (h : isEmptyConv conv = true) :
    processConv st conv
      = .ok (st.1, { st.2 with skipped := st.2.skipped + 1 }) := by
  rcases conv with ⟨cu, cn, cca, ccm⟩
  cases ccm with
  | none => rfl
  | some msgs =>
    cases msgs with
    | nil => rfl
    | cons first rest => simp [isEmptyConv] at h

lemma transform_skip_count (data : List SrcConv) :
    ∀ w, transform data = .ok w →
    w.2.2 = data.countP (fun conv => isEmptyConv conv) := by
  induction data with
  | nil =>
    intro w h
    injection h with h'
    rw [← h']
    rfl
  | cons c0 rest ih =>
    intro w h
    have hr : transform (c0 :: rest) =
        (transformConv c0).bind (fun r =>
          (transform rest).bind (fun wr =>
            match r with
            | none => Except.ok (wr.1, wr.2.1, wr.2.2 + 1)
            | some (crow, mrows) =>
              Except.ok (crow :: wr.1, mrows ++ wr.2.1, wr.2.2))) := rfl
    rw [hr] at h
    cases htc : transformConv c0 with
    | error e => rw [htc, bindX_err] at h; exact Except.noConfusion h
    | ok r =>
      rw [htc, bindX_ok] at h
      cases hrest : transform rest with
      | error e => rw [hrest, bindX_err] at h; exact Except.noConfusion h
      | ok w' =>
        rw [hrest, bindX_ok] at h
        cases r with
        | none =>
          injection h with h'
          rw [← h']
          have hskip : isEmptyConv c0 = true := transformConv_none_imp c0 htc
          rw [List.countP_cons, ← ih w' hrest]
          simp [hskip]
        | some cw =>
          rcases cw with ⟨crow, mrows⟩
          injection h with h'
          rw [← h']
          have hne : isEmptyConv c0 = false := by
            cases hq : isEmptyConv c0 with
            | false => rfl
            | true =>
              exfalso
              rcases c0 with ⟨cu, cn, cca, ccm⟩
              cases ccm with
              | none =>
                simp only [transformConv] at htc
                injection htc with h''
                exact Option.noConfusion h''
              | some msgs =>
                cases msgs with
                | nil =>
                  simp only [transformConv] at htc
                  injection htc with h''
                  exact Option.noConfusion h''
                | cons a b => simp [isEmptyConv] at hq
          rw [List.countP_cons, ← ih w' hrest]
          simp [hne]

lemma transformMsg_conv_id (u : String) (m : SrcMsg) (r : MsgRow)
    (h : transformMsg u m = .ok (some r)) : r.conversation_id = u := by
  rcases m with ⟨mu, msnd, mtxt, mca⟩
  cases mtxt with
  | none => simp [transformMsg] at h
  | some t =>
    simp only [transformMsg] at h
    by_cases ht0 : t = ""
    · rw [if_pos ht0] at h
      injection h with h'
      exact Option.noConfusion h'
    · rw [if_neg ht0] at h
      by_cases hst : pyStrip t.data = []
      · rw [if_pos hst] at h
        injection h with h'
        exact Option.noConfusion h'
      · rw [if_neg hst] at h
        cases mu with
        | none => exact Except.noConfusion h
        | some u' =>
          cases mca with
          | none => exact Except.noConfusion h
          | some ca =>
            simp only [] at h
            cases hiso : iso_to_unix_timestamp ca with
            | none => rw [hiso] at h; exact Except.noConfusion h
            | some ts =>
              rw [hiso] at h
              simp only [] at h
              injection h with h'
              injection h' with h''
              rw [← h'']

lemma transformMsgs_conv_id (u : String) (ms : List SrcMsg) :
    ∀ rows, transformMsgs u ms = .ok rows →
    ∀ r ∈ rows, r.conversation_id = u := by
  induction ms with
  | nil =>
    intro rows h r hr
    injection h with h'
    rw [← h'] at hr
    cases hr
  | cons m0 ms ih =>
    intro rows h r hr
    have hexp : transformMsgs u (m0 :: ms) =
        (transformMsg u m0).bind (fun r0 =>
          (transformMsgs u ms).bind (fun rest =>
            match r0 with
            | none => Except.ok rest
            | some row => Except.ok (row :: rest))) := rfl
    rw [hexp] at h
    cases htm : transformMsg u m0 with
    | error e => rw [htm, bindX_err] at h; exact Except.noConfusion h
    | ok r0 =>
      rw [htm, bindX_ok] at h
      cases hrest : transformMsgs u ms with
      | error e => rw [hrest, bindX_err] at h; exact Except.noConfusion h
      | ok rows' =>
        rw [hrest, bindX_ok] at h
        cases r0 with
        | none =>
          injection h with h'
          rw [← h'] at hr
          exact ih rows' hrest r hr
        | some row =>
          injection h with h'
          rw [← h'] at hr
          rcases List.mem_cons.1 hr with hr0 | hr'
          · subst hr0
            exact transformMsg_conv_id u m0 r htm
          · exact ih rows' hrest r hr'

lemma transformConv_refs (conv : SrcConv) (crow : ConvRow)
    (mrows : List MsgRow)
    (h : transformConv conv = .ok (some (crow, mrows))) :
    ∀ mr ∈ mrows, mr.conversation_id = crow.id := by
  rcases conv with ⟨cu, cn, cca, ccm⟩
  cases ccm with
  | none =>
    simp only [transformConv] at h
    injection h with h'
    exact Option.noConfusion h'
  | some msgs =>
    cases msgs with
    | nil =>
      simp only [transformConv] at h
      injection h with h'
      exact Option.noConfusion h'
    | cons first rest =>
      simp only [transformConv] at h
      cases cu with
      | none => exact Except.noConfusion h
      | some u =>
        cases cca with
        | none => exact Except.noConfusion h
        | some ca =>
          simp only [] at h
          cases hiso : iso_to_unix_timestamp ca with
          | none => rw [hiso] at h; exact Except.noConfusion h
          | some ts =>
            rw [hiso] at h
            simp only [] at h
            cases hms : transformMsgs u (first :: rest) with
            | error e => rw [hms, mapE_err] at h; exact Except.noConfusion h
            | ok rows =>
              rw [hms, mapE_ok] at h
              injection h with h'
              injection h' with h''
              have hrows : mrows = rows := by
                have := congrArg Prod.snd h''
                simpa using this.symm
              have hcrow : crow = ⟨u, deriveTitle (cn.getD "") first.text,
                  "gemini-2.0-flash", ts⟩ := by
                have := congrArg Prod.fst h''
                simpa using this.symm
              intro mr hmr
              rw [hrows] at hmr
              rw [hcrow]
              exact transformMsgs_conv_id u (first :: rest) rows hms mr hmr

lemma transform_refs (data : List SrcConv) :
    ∀ w, transform data = .ok w →
    ∀ mr ∈ w.2.1, ∃ cr ∈ w.1, mr.conversation_id = cr.id := by
  induction data with
  | nil =>
    intro w h mr hmr
    injection h with h'
    rw [← h'] at hmr
    cases hmr
  | cons c0 rest ih =>
    intro w h mr hmr
    have hr : transform (c0 :: rest) =
        (transformConv c0).bind (fun r =>
          (transform rest).bind (fun wr =>
            match r with
            | none => Except.ok (wr.1, wr.2.1, wr.2.2 + 1)
            | some (crow, mrows) =>
              Except.ok (crow :: wr.1, mrows ++ wr.2.1, wr.2.2))) := rfl
    rw [hr] at h
    cases htc : transformConv c0 with
    | error e => rw [htc, bindX_err] at h; exact Except.noConfusion h
    | ok r =>
      rw [htc, bindX_ok] at h
      cases hrest : transform rest with
      | error e => rw [hrest, bindX_err] at h; exact Except.noConfusion h
      | ok w' =>
        rw [hrest, bindX_ok] at h
        cases r with
        | none =>
          injection h with h'
          rw [← h'] at hmr
          obtain ⟨cr, hcr, hid⟩ := ih w' hrest mr hmr
          exact ⟨cr, by rw [← h']; exact hcr, hid⟩
        | some cw =>
          rcases cw with ⟨crow, mrows⟩
          injection h with h'
          rw [← h'] at hmr
          simp only [] at hmr
          rcases List.mem_append.1 hmr with hm1 | hm2
          · refine ⟨crow, ?_, transformConv_refs c0 crow mrows htc mr hm1⟩
            rw [← h']
            exact List.mem_cons_self _ _
          · obtain ⟨cr, hcr, hid⟩ := ih w' hrest mr hm2
            exact ⟨cr, by rw [← h']; exact List.mem_cons_of_mem _ hcr, hid⟩

lemma transform_conv_mem (data : List SrcConv) :
    ∀ w, transform data = .ok w →
    ∀ conv ∈ data, isEmptyConv conv = false →
    ∃ crow ∈ w.1, conv.uuid = some crow.id := by
  induction data with
  | nil => intro w _ conv hc; cases hc
  | cons c0 rest ih =>
    intro w h conv hmem hne
    have hr : transform (c0 :: rest) =
        (transformConv c0).bind (fun r =>
          (transform rest).bind (fun wr =>
            match r with
            | none => Except.ok (wr.1, wr.2.1, wr.2.2 + 1)
            | some (crow, mrows) =>
              Except.ok (crow :: wr.1, mrows ++ wr.2.1, wr.2.2))) := rfl
    rw [hr] at h
    cases htc : transformConv c0 with
    | error e => rw [htc, bindX_err] at h; exact Except.noConfusion h
    | ok r =>
      rw [htc, bindX_ok] at h
      cases hrest : transform rest with
      | error e => rw [hrest, bindX_err] at h; exact Except.noConfusion h
      | ok w' =>
        rw [hrest, bindX_ok] at h
        rcases List.mem_cons.1 hmem with hm0 | hm'
        · subst hm0
          cases r with
          | none =>
            rw [transformConv_none_imp conv htc] at hne
            cases hne
          | some cw =>
            rcases cw with ⟨crow, mrows⟩
            refine ⟨crow, ?_, transformConv_some_uuid conv crow mrows htc⟩
            injection h with h'
            rw [← h']
            exact List.mem_cons_self _ _
        · obtain ⟨crow, hcw, hu⟩ := ih w' hrest conv hm' hne
          cases r with
          | none =>
            injection h with h'
            exact ⟨crow, by rw [← h']; exact hcw, hu⟩
          | some cw =>
            rcases cw with ⟨crow', mrows'⟩
            injection h with h'
            exact ⟨crow, by rw [← h']; exact List.mem_cons_of_mem _ hcw, hu⟩

lemma applyAll_key_surv {α : Type} (key : α → String) (tbl ws : List α)
    (r : α) (hr : r ∈ tbl) :
    ∃ r' ∈ applyAll key tbl ws, key r' = key r := by
  have h1 : hasKey key (key r) tbl = true :=
    (hasKey_iff key (key r) tbl).2 ⟨r, hr, rfl⟩
  have h2 := hasKey_applyAll_mono key (key r) ws tbl h1
  exact (hasKey_iff key (key r) _).1 h2

/-! ### The claims -/

/-- C1 (counterexample): the claim says a conversation whose
`chat_messages` is non-empty but contains zero eligible messages is
skipped entirely, with no Conversation row stored for its uuid.  The
code only tests `chat_messages` for emptiness (line 71), so `wsConv` —
whose single message's text is whitespace — ends the run with a stored
Conversation row for `"c1"` and a successful exit, refuting the claim. -/
theorem c1_counterexample :
    (wsConv.chat_messages.getD []).all (fun m => !eligibleMsg m) = true ∧
    wsConv.chat_messages ≠ some [] ∧ wsConv.chat_messages ≠ none ∧
    wsConv.uuid = some "c1" ∧
    (mainRun [wsConv] emptyDB).1 = 0 ∧
    hasKey ConvRow.id "c1" (mainRun [wsConv] emptyDB).2.conversations
      = true := by
  refine ⟨rfl, by decide, by decide, rfl, rfl, rfl⟩

/-- C1 (amended): only conversations whose `chat_messages` is absent or
empty are skipped.  A conversation with a non-empty `chat_messages`
list is always stored on a successful run — a Conversation row carrying
its uuid is in the final store — even when none of its messages is
eligible. -/
theorem c1_nonempty_conv_stored (data : List SrcConv) (db db' : DB)
    (c c' : Counters) (conv : SrcConv) (hmem : conv ∈ data)
    (hne : isEmptyConv conv = false)
    (h : migrate data (db, c) = .ok (db', c')) :
    ∃ u, conv.uuid = some u ∧
      hasKey ConvRow.id u db'.conversations = true := by
  rw [migrate_eq data db c] at h
  cases ht : transform data with
  | error e => rw [ht, mapE_err] at h; exact Except.noConfusion h
  | ok w =>
    rw [ht, mapE_ok] at h
    injection h with hpair
    obtain ⟨crow, hcw, hu⟩ := transform_conv_mem data w ht conv hmem hne
    refine ⟨crow.id, hu, ?_⟩
    have hdb : db' = DB.mk (applyAll ConvRow.id db.conversations w.1)
        (applyAll MsgRow.id db.messages w.2.1) := by
      have := congrArg Prod.fst hpair
      simpa using this.symm
    rw [hdb]
    exact hasKey_applyAll_of_mem ConvRow.id crow w.1 hcw db.conversations

/-- C1 (witness): the amended statement at the concrete run of
`[wsConv]` from the empty store. -/
theorem c1_witness :
    ∃ u, wsConv.uuid = some u ∧
      hasKey ConvRow.id u wsDB.conversations = true :=
  c1_nonempty_conv_stored [wsConv] emptyDB wsDB initCounters
    ⟨1, 0, 0⟩ wsConv (List.mem_singleton_self _) rfl (by rfl)

/-- C2: if any non-skipped conversation has a missing `uuid`, a missing
`created_at` or a `created_at` that does not parse — or any of its
eligible messages does — the whole run exits with status 1 and the
target store keeps exactly its prior rows (the uncommitted transaction
is rolled back). -/
theorem c2_abort_rolls_back (data : List SrcConv) (db : DB)
    (h : ∃ conv ∈ data, isEmptyConv conv = false ∧
      (badConvFields conv ∨ ∃ m ∈ conv.chat_messages.getD [],
        eligibleMsg m = true ∧ badMsgFields m)) :
    (mainRun data db).1 = 1 ∧ (mainRun data db).2 = db := by
  rcases h with ⟨conv, hmem, hne, hbad⟩
  unfold mainRun
  cases hm : migrate data (db, initCounters) with
  | error e => exact ⟨rfl, rfl⟩
  | ok out =>
    exfalso
    rw [migrate_eq data db initCounters] at hm
    cases ht : transform data with
    | error e => rw [ht, mapE_err] at hm; exact Except.noConfusion hm
    | ok w =>
      have hf := transform_ok_fields data w ht conv hmem hne
      rcases hbad with hb | ⟨m, hmm, hel, hbm⟩
      · exact hf.1 hb
      · exact hf.2 m hmm hel hbm

/-- C2 (witness): a conversation with messages but no `uuid` aborts the
run with exit status 1 and leaves the empty store empty. -/
theorem c2_witness :
    (mainRun [badConv] emptyDB).1 = 1 ∧
    (mainRun [badConv] emptyDB).2 = emptyDB :=
  c2_abort_rolls_back [badConv] emptyDB
    ⟨badConv, List.mem_singleton_self _, rfl, Or.inl (Or.inl rfl)⟩

/-- C3: a successful run is idempotent.  If migrating `data` into `db`
succeeds with final store `db1` and counters `c1`, then running the
migration again on the same input against `db1` also succeeds, leaves
the tables literally unchanged (every `INSERT OR REPLACE` hits the
replace branch with the same row) and reports the same counts. -/
theorem c3_idempotent (data : List SrcConv) (db db1 : DB) (c1 : Counters)
    (h : migrate data (db, initCounters) = .ok (db1, c1)) :
    migrate data (db1, initCounters) = .ok (db1, c1) := by
  rw [migrate_eq data db initCounters] at h
  cases ht : transform data with
  | error e => rw [ht, mapE_err] at h; exact Except.noConfusion h
  | ok w =>
    rw [ht, mapE_ok] at h
    injection h with hpair
    have hdb : db1 = DB.mk (applyAll ConvRow.id db.conversations w.1)
        (applyAll MsgRow.id db.messages w.2.1) := by
      have := congrArg Prod.fst hpair
      simpa using this.symm
    have hc : c1 = Counters.mk (initCounters.conversations + w.1.length)
        (initCounters.messages + w.2.1.length)
        (initCounters.skipped + w.2.2) := by
      have := congrArg Prod.snd hpair
      simpa using this.symm
    rw [migrate_eq data db1 initCounters, ht, mapE_ok]
    rw [hdb]
    show Except.ok
        (DB.mk
          (applyAll ConvRow.id
            (applyAll ConvRow.id db.conversations w.1) w.1)
          (applyAll MsgRow.id
            (applyAll MsgRow.id db.messages w.2.1) w.2.1),
         Counters.mk (initCounters.conversations + w.1.length)
           (initCounters.messages + w.2.1.length)
           (initCounters.skipped + w.2.2))
      = Except.ok
        (DB.mk (applyAll ConvRow.id db.conversations w.1)
          (applyAll MsgRow.id db.messages w.2.1), c1)
    rw [applyAll_idem, applyAll_idem, hc]

/-- C3 (witness): re-running the one-conversation input against the
store it produced returns that store and the same counts. -/
theorem c3_witness :
    migrate smallInput (smallDB, initCounters)
      = .ok (smallDB, ⟨1, 1, 0⟩) :=
  c3_idempotent smallInput emptyDB smallDB ⟨1, 1, 0⟩ (by rfl)

/-- C4: on the offset-aware fragment, `iso_to_unix_timestamp` returns
the Unix epoch second count computed by the independent recursive
calendar (`specEpoch`); a trailing `Z` behaves exactly like `+00:00`;
the documented example maps to 1704067200; a non-timestamp string
fails. -/
theorem c4_iso_spec :
    (∀ dt o, validDT dt = true → validOff o = true →
      iso_to_unix_timestamp (renderFull dt o) = some (specEpoch dt o)) ∧
    (∀ dt, validDT dt = true →
      iso_to_unix_timestamp (renderZulu dt)
          = iso_to_unix_timestamp (renderFull dt utcOff) ∧
      iso_to_unix_timestamp (renderZulu dt)
          = some (specEpoch dt utcOff)) ∧
    iso_to_unix_timestamp "2024-01-01T00:00:00Z" = some 1704067200 ∧
    iso_to_unix_timestamp "not a timestamp" = none := by
  refine ⟨?_, ?_, by rfl, by rfl⟩
  · intro dt o hdt ho
    rw [iso_renderFull dt o hdt ho, epochSecs_eq_spec dt o hdt]
  · intro dt hdt
    constructor
    · rw [iso_renderZulu dt hdt, iso_renderFull dt utcOff hdt rfl]
    · rw [iso_renderZulu dt hdt, epochSecs_eq_spec dt utcOff hdt]

/-- C4 (witness): the general statement at 2024-01-01T00:00:00. -/
theorem c4_witness :
    validDT ⟨2024, 1, 1, 0, 0, 0⟩ = true ∧
    iso_to_unix_timestamp (renderZulu ⟨2024, 1, 1, 0, 0, 0⟩)
      = some (specEpoch ⟨2024, 1, 1, 0, 0, 0⟩ utcOff) :=
  ⟨by decide, (c4_iso_spec.2.1 ⟨2024, 1, 1, 0, 0, 0⟩ (by decide)).2⟩

/-- C5: the composed title logic equals the specification's
`deriveTitle`: the trimmed raw name when non-empty, else the first 50
characters of the trimmed first-message text when non-empty, else the
literal `"New chat"`; together with the three documented examples. -/
theorem c5_deriveTitle :
    (∀ rawName firstText,
      deriveTitle rawName firstText = deriveTitleSpec rawName firstText) ∧
    deriveTitle "" (some "") = "New chat" ∧
    deriveTitle "  " (some "hello world") = "hello world" ∧
    deriveTitle "My Chat" (some "ignored") = "My Chat" := by
  refine ⟨?_, by rfl, by rfl, by rfl⟩
  intro rawName ft
  unfold deriveTitle deriveTitleSpec
  by_cases hn : pyStrip rawName.data = []
  · cases ft with
    | none => simp [hn]
    | some t =>
      by_cases ht0 : t = ""
      · have h0 : pyStrip (t : String).data = [] := by rw [ht0]; rfl
        simp [hn, ht0, h0, show pyStrip [] = [] from rfl]
      · by_cases hts : pyStrip t.data = []
        · simp [hn, ht0, hts, generate_title]
        · simp [hn, ht0, hts, generate_title, List.take_eq_nil_iff]
  · simp [hn]

/-- C6: for a message of a non-skipped conversation that does not raise,
a Message row is produced iff the text is present and does not strip to
empty; a produced row carries the original untrimmed text as `content`,
role `"user"` exactly when the sender is `"human"` (else
`"assistant"`), and the parent conversation's uuid. -/
theorem c6_mapMessage (cid : String) (m : SrcMsg) (res : Option MsgRow)
    (h : transformMsg cid m = .ok res) :
    ((∃ r, res = some r) ↔ eligibleMsg m = true) ∧
    (∀ r, res = some r →
      (∃ t, m.text = some t ∧ r.content = t) ∧
      (r.role = "user" ↔ m.sender = some "human") ∧
      (m.sender ≠ some "human" → r.role = "assistant") ∧
      r.conversation_id = cid) := by
  rcases m with ⟨mu, msnd, mtxt, mca⟩
  cases mtxt with
  | none =>
    simp only [transformMsg] at h
    injection h with h'
    subst h'
    refine ⟨⟨fun ⟨r, hr⟩ => Option.noConfusion hr, fun he => ?_⟩,
      fun r hr => Option.noConfusion hr⟩
    simp [eligibleMsg] at he
  | some t =>
    simp only [transformMsg] at h
    by_cases ht0 : t = ""
    · rw [if_pos ht0] at h
      injection h with h'
      subst h'
      refine ⟨⟨fun ⟨r, hr⟩ => Option.noConfusion hr, fun he => ?_⟩,
        fun r hr => Option.noConfusion hr⟩
      have hne := eligibleMsg_strip _ he
      rcases hne with ⟨t', ht', h0', hs'⟩
      simp only [] at ht'
      cases ht'
      exact absurd ht0 h0'
    · rw [if_neg ht0] at h
      by_cases hst : pyStrip t.data = []
      · rw [if_pos hst] at h
        injection h with h'
        subst h'
        refine ⟨⟨fun ⟨r, hr⟩ => Option.noConfusion hr, fun he => ?_⟩,
          fun r hr => Option.noConfusion hr⟩
        have : ¬ pyStrip t.data = [] := by simpa [eligibleMsg] using he
        exact absurd hst this
      · rw [if_neg hst] at h
        cases mu with
        | none => exact Except.noConfusion h
        | some u' =>
          cases mca with
          | none => exact Except.noConfusion h
          | some ca =>
            simp only [] at h
            cases hiso : iso_to_unix_timestamp ca with
            | none => rw [hiso] at h; exact Except.noConfusion h
            | some ts =>
              rw [hiso] at h
              simp only [] at h
              injection h with h'
              subst h'
              constructor
              · constructor
                · intro _
                  simp [eligibleMsg, hst]
                · intro _
                  exact ⟨_, rfl⟩
              · intro r hr
                injection hr with hr'
                subst hr'
                refine ⟨⟨t, rfl, rfl⟩, ⟨?_, ?_⟩, ?_, rfl⟩
                · intro hrole
                  by_cases hs : msnd = some "human"
                  · exact hs
                  · exfalso
                    simp only [if_neg hs] at hrole
                    exact absurd hrole (by decide)
                · intro hs
                  simp only [if_pos hs]
                · intro hs
                  simp only [if_neg hs]

/-- C6 (witness): the statement at a concrete eligible human message. -/
theorem c6_witness :
    (∃ r, (some (⟨"m1", "c9", "user", "hi", 1704067200⟩ : MsgRow))
        = some r) ↔ eligibleMsg (mkMsg "m1" "human" "hi") = true :=
  (c6_mapMessage "c9" (mkMsg "m1" "human" "hi")
    (some ⟨"m1", "c9", "user", "hi", 1704067200⟩) (by rfl)).1

/-- C7: the no-orphans invariant is preserved: if every message row of
the initial store references a stored conversation, then after any
successful run every message row of the final store still references a
conversation row of the final store.  In particular a run from the
empty store produces no orphan message rows. -/
theorem c7_no_orphans (data : List SrcConv) (db db' : DB)
    (c c' : Counters) (h0 : noOrphans db)
    (h : migrate data (db, c) = .ok (db', c')) : noOrphans db' := by
  rw [migrate_eq data db c] at h
  cases ht : transform data with
  | error e => rw [ht, mapE_err] at h; exact Except.noConfusion h
  | ok w =>
    rw [ht, mapE_ok] at h
    injection h with hpair
    have hdb : db' = DB.mk (applyAll ConvRow.id db.conversations w.1)
        (applyAll MsgRow.id db.messages w.2.1) := by
      have := congrArg Prod.fst hpair
      simpa using this.symm
    rw [hdb]
    intro m hm
    rcases mem_applyAll MsgRow.id w.2.1 db.messages m hm with hold | hnew
    · obtain ⟨c0, hc0, hid⟩ := h0 m hold
      obtain ⟨c0', hc0', hkey⟩ :=
        applyAll_key_surv ConvRow.id db.conversations w.1 c0 hc0
      refine ⟨c0', hc0', ?_⟩
      rw [hid]
      exact hkey.symm
    · obtain ⟨cr, hcr, hid⟩ := transform_refs data w ht m hnew
      have hk := hasKey_applyAll_of_mem ConvRow.id cr w.1 hcr db.conversations
      obtain ⟨c0', hc0', hkey⟩ :=
        (hasKey_iff ConvRow.id (ConvRow.id cr) _).1 hk
      refine ⟨c0', hc0', ?_⟩
      rw [hid]
      exact hkey.symm

/-- C7 (witness): the store produced by the end-to-end scenario from an
empty store has no orphan message rows. -/
theorem c7_witness : noOrphans scenarioDB :=
  c7_no_orphans scenarioInput emptyDB scenarioDB initCounters ⟨1, 2, 1⟩
    (fun m hm => absurd hm (List.not_mem_nil m)) (by rfl)

/-- C8: a conversation with absent or empty `chat_messages` is skipped
without touching the store or any other counter, regardless of its
remaining fields — processing it is exactly a skip-counter increment —
and on a successful run the final skipped count is exactly the number
of such conversations in the input, so messages skipped for empty text
never contribute. -/
theorem c8_empty_conv (conv : SrcConv) (data : List SrcConv) (db : DB)
    (c : Counters) (h : isEmptyConv conv = true) :
    migrate (conv :: data) (db, c)
      = migrate data (db, { c with skipped := c.skipped + 1 }) ∧
    (∀ db' c', migrate data (db, c) = .ok (db', c') →
      c'.skipped = c.skipped + data.countP (fun cv => isEmptyConv cv)) := by
  constructor
  · have hl : migrate (conv :: data) (db, c) =
        (processConv (db, c) conv).bind (fun st' => migrate data st') := rfl
    rw [hl, processConv_skip (db, c) conv h, bindX_ok]
  · intro db' c' hm
    rw [migrate_eq data db c] at hm
    cases ht : transform data with
    | error e => rw [ht, mapE_err] at hm; exact Except.noConfusion hm
    | ok w =>
      rw [ht, mapE_ok] at hm
      injection hm with hpair
      have hc' : c' = Counters.mk (c.conversations + w.1.length)
          (c.messages + w.2.1.length) (c.skipped + w.2.2) := by
        have := congrArg Prod.snd hpair
        simpa using this.symm
      rw [hc', transform_skip_count data w ht]

/-- C8 (witness): a message-less conversation with no uuid and an
unparseable `created_at` is skipped without error, bumping only the
skipped counter. -/
theorem c8_witness :
    migrate [noMsgsConv] (emptyDB, initCounters)
      = migrate [] (emptyDB, ⟨0, 0, 1⟩) :=
  (c8_empty_conv noMsgsConv [] emptyDB initCounters rfl).1

/-- C9: the end-to-end scenario — one conversation with three messages
of which one has empty text, and one conversation with no messages —
succeeds and reports 1 conversation migrated, 2 messages migrated and
1 conversation skipped. -/
theorem c9_scenario :
    migrate scenarioInput (emptyDB, initCounters)
      = .ok (scenarioDB, ⟨1, 2, 1⟩) := rfl

/-- C10: `generate_title` always returns a non-empty string of at most
50 characters: the first 50 characters of the stripped input when that
is non-empty, else the literal `"New chat"`. -/
theorem c10_generate_title (s : String) :
    generate_title s ≠ "" ∧ (generate_title s).length ≤ 50 ∧
    (pyStrip s.data = [] → generate_title s = "New chat") ∧
    (pyStrip s.data ≠ [] →
      generate_title s = ⟨(pyStrip s.data).take 50⟩) := by
  simp only [generate_title]
  by_cases h : pyStrip s.data = []
  · rw [h]
    exact ⟨by decide, by decide, fun _ => rfl, fun hc => absurd rfl hc⟩
  · have ht : (pyStrip s.data).take 50 ≠ [] := by
      intro hc
      rcases List.take_eq_nil_iff.1 hc with h50 | hl
      · exact absurd h50 (by decide)
      · exact h hl
    rw [if_neg ht]
    refine ⟨?_, ?_, fun hc => absurd hc h, fun _ => rfl⟩
    · intro he
      exact ht (congrArg String.data he)
    · rw [show (⟨(pyStrip s.data).take 50⟩ : String).length
          = ((pyStrip s.data).take 50).length from rfl, List.length_take]
      exact min_le_left _ _

/-- C10 (witness): the statement at a concrete string. -/
theorem c10_witness :
    pyStrip ("  hi  " : String).data ≠ [] ∧
    generate_title "  hi  "
      = ⟨(pyStrip ("  hi  " : String).data).take 50⟩ :=
  ⟨by decide, (c10_generate_title "  hi  ").2.2.2 (by decide)⟩
